import Mathlib

/-!
Verification development for the bracket-update scripts.

The Python scripts are embedded shallowly: cell values are lists of
characters, a spreadsheet tab is a total function from 1-based row index
to the list of cell values stored in that row (an absent row is `[]`),
and each script's pure row-transformation logic is translated into a
Lean function.  External services (the Sheets API, the scoreboard HTTP
API) are modelled through their request/response shapes: a bounded range
read returns the rectangle of stored rows, a bounded range write
replaces exactly the rows of the range, and the scoreboard provider is a
list of successive page responses.
-/

set_option maxRecDepth 8192

namespace BracketUpdate

/-- A Python string, modelled as its list of characters. -/
abbrev Str := List Char

/-- The default whitespace characters removed by Python `str.strip()`
(ASCII subset: space, tab, newline, carriage return, vertical tab, form feed). -/
def pySpaceChars : Str := [' ', '\t', '\n', '\r', Char.ofNat 11, Char.ofNat 12]

/-- Whether a character is stripped by Python `str.strip()`. -/
def isPySpace (c : Char) : Bool := pySpaceChars.contains c

/-- Python `str.lower()` (ASCII case mapping). -/
def lowerStr (s : Str) : Str := s.map Char.toLower

/-- Python `str.strip()`: drop whitespace from both ends. -/
def pyStrip (s : Str) : Str := List.rdropWhile isPySpace (List.dropWhile isPySpace s)

/-- `normalize` from `scripts/append_games_to_sheet.py`: `None` becomes `""`;
otherwise strip the string and collapse `"nan"`/`"none"`/`"null"`
(case-insensitively) to `""`. -/
def normalize (x : Option Str) : Str :=
  match x with
  | none => []
  | some v =>
    let s := pyStrip v
    if lowerStr s = "nan".toList ∨ lowerStr s = "none".toList ∨ lowerStr s = "null".toList
    then [] else s

/-- `row_key` from `scripts/append_games_to_sheet.py`: the tuple of the six
normalized cell values, used as the identity of a row. -/
def row_key (vals : List Str) : List Str := vals.map (fun v => normalize (some v))

/-- `clean` from `scripts/scrape_games.py`: like `normalize`, with the empty
string also listed explicitly in the collapse set. -/
def clean (x : Option Str) : Str :=
  match x with
  | none => []
  | some v =>
    let s := pyStrip v
    if lowerStr s = [] ∨ lowerStr s = "nan".toList ∨ lowerStr s = "none".toList ∨
        lowerStr s = "null".toList
    then [] else s

/-- `norm` from `scripts/overwrite_tab_from_csv.py` (same body as `normalize`). -/
def norm (x : Option Str) : Str :=
  match x with
  | none => []
  | some v =>
    let s := pyStrip v
    if lowerStr s = "nan".toList ∨ lowerStr s = "none".toList ∨ lowerStr s = "null".toList
    then [] else s

/-- A spreadsheet tab: 1-based row index to the stored row of cell values. -/
abbrev Sheet := Nat → List Str

/-- A bounded rectangular range read (`ws.get("A{a}:F{b}")`): the rows of the
sheet from row `a` to row `b` inclusive. -/
def sheetGet (sheet : Sheet) (a b : Nat) : List (List Str) :=
  (List.range' a (b + 1 - a)).map (fun i => sheet i)

/-- A bounded rectangular range write (`ws.update("A{s}:F{e}", rows)`): rows
`start_row` through `start_row + rows.length - 1` are replaced by `rows`,
every other row is untouched. -/
def sheetUpdate (sheet : Sheet) (start_row : Nat) (rows : List (List Str)) : Sheet :=
  fun r =>
    if start_row ≤ r ∧ r ≤ start_row + rows.length - 1 then rows.getD (r - start_row) []
    else sheet r

/-- The body of the scan loop of `last_nonempty_row_in_col_a`
(`scripts/append_games_to_sheet.py`): `i` is the 1-based index of the next
row, `last` the deepest non-empty index seen so far. -/
def lastNEAux : Nat → Nat → List (List Str) → Nat
  | _, last, [] => last
  | i, last, row :: rest =>
    lastNEAux (i + 1) (if normalize (some (row.headD [])) ≠ [] then i else last) rest

/-- `last_nonempty_row_in_col_a` from `scripts/append_games_to_sheet.py`:
scan the whole column top to bottom, remembering the 1-based index of every
row whose normalized first cell is non-empty; `0` if none is. -/
def last_nonempty_row_in_col_a (col : List (List Str)) : Nat := lastNEAux 1 0 col

/-- `ws.get("A:A")` for a tab whose store reports `height` rows: each row
contributes its column-A cell (as the row `[a_i]`, or `[]` when absent). -/
def colAOf (sheet : Sheet) (height : Nat) : List (List Str) :=
  (List.range' 1 height).map (fun i => (sheet i).take 1)

/-- `(r + [""] * 6)[:6]` from `scripts/append_games_to_sheet.py`: pad a read
row with empty cells to length exactly 6. -/
def pad6 (r : List Str) : List Str := (r ++ List.replicate 6 []).take 6

/-- The existing-keys set built by `main` of `scripts/append_games_to_sheet.py`
(lines 77-89): when the locator result `last_a` and the lookback are both
positive, read rows `max 1 (last_a - lookback + 1)` through `last_a` and
collect the `row_key` of each padded row; otherwise the set stays empty.
Python's `set` is modelled as the list of inserted keys, used only through
membership. -/
def existingKeys (last_a lookback : Nat) (sheet : Sheet) : List (List Str) :=
  if 0 < last_a ∧ 0 < lookback then
    (sheetGet sheet (max 1 (last_a - lookback + 1)) last_a).map (fun r => row_key (pad6 r))
  else []

/-- The dedupe loop of `main` of `scripts/append_games_to_sheet.py`
(lines 92-100): normalize each incoming row, drop it (counting a duplicate)
when its `row_key` is in the existing set, keep it otherwise; the set is
never extended.  Returns the kept rows in order and the duplicate count. -/
def dedupeFilter (keys : List (List Str)) (batch : List (List Str)) :
    List (List Str) × Nat :=
  match batch with
  | [] => ([], 0)
  | r :: rest =>
    let vals := r.map (fun v => normalize (some v))
    let k := row_key vals
    let res := dedupeFilter keys rest
    if k ∈ keys then (res.1, res.2 + 1) else (vals :: res.1, res.2)

/-- The sheet mutation performed by `main` of `scripts/append_games_to_sheet.py`:
locate the last non-empty row of column A, build the lookback key set, filter
the CSV batch, and, unless nothing is left, write the kept rows as one bounded
range starting at `last_a + 1`.  `height` is the number of rows the store
reports for the `A:A` read. -/
def append_games (sheet : Sheet) (height : Nat) (batch : List (List Str))
    (lookback : Nat) : Sheet :=
  let last_a := last_nonempty_row_in_col_a (colAOf sheet height)
  let start_row := last_a + 1
  let keys := existingKeys last_a lookback sheet
  let csv_rows := (dedupeFilter keys batch).1
  if csv_rows = [] then sheet
  else sheetUpdate sheet start_row csv_rows

/-- The report printed by the write/verify tail of `main` of
`scripts/append_games_to_sheet.py` (lines 111-126). -/
structure WriteVerifyReport where
  write_start : Nat
  write_end : Nat
  new_rows : Nat
  rows_read_back : Nat
deriving DecidableEq

/-- The verify step of `main` of `scripts/append_games_to_sheet.py`: compute
the inclusive end row, and report the intended row count next to the length
of whatever the read-back returned.  There is no raise path: every
read-back value, matching or not, produces a report. -/
def verifyReport (start_row : Nat) (csv_rows : List (List Str))
    (written_back : List (List Str)) : WriteVerifyReport :=
  { write_start := start_row
    write_end := start_row + csv_rows.length - 1
    new_rows := csv_rows.length
    rows_read_back := written_back.length }

/-- `CSV_COLS` from `scripts/append_games_to_sheet.py`. -/
def CSV_COLS : List Str :=
  ["date", "winner_team", "winner_score", "loser_team", "loser_score",
    "site_designation"].map String.toList

/-- Outcome of the CSV-validation stage of `main` of
`scripts/append_games_to_sheet.py` (lines 59-68). -/
inductive CsvStage where
  | earlyExitEmpty (msg : Str)
  | missingCols (missing : List Str)
  | proceed
deriving DecidableEq

/-- The CSV-validation stage of `main` of `scripts/append_games_to_sheet.py`:
an empty dataframe prints a message and returns from `main`; a missing
required column raises `RuntimeError`; otherwise the script proceeds. -/
def appendCsvStage (cols : List Str) (rows : List (List Str)) : CsvStage :=
  if rows = [] then .earlyExitEmpty "CSV is empty. Nothing to write.".toList
  else
    let missing := CSV_COLS.filter (fun c => decide (c ∉ cols))
    if missing ≠ [] then .missingCols missing else .proceed

/-- Process exit status determined by the CSV-validation stage: a plain
`return` from `main` lets the interpreter exit with status 0, an uncaught
`RuntimeError` exits with a non-zero status; `proceed` leaves the status
to the rest of the script. -/
def stageExitCode : CsvStage → Option Nat
  | .earlyExitEmpty _ => some 0
  | .missingCols _ => some 1
  | .proceed => none

/-- The result tab of `main` of `scripts/overwrite_tab_from_csv.py`:
clear the whole tab, write the CSV header plus the normalized data rows
as rows `1` through `len(values)`, then blank `clear_below` further rows
(each a row of `end_col` empty strings) directly below. -/
def overwrite_tab (sheet : Sheet) (cols : List Str) (data : List (List Str))
    (clear_below : Nat) : Sheet :=
  let values := cols :: data.map (fun row => row.map (fun v => norm (some v)))
  let end_row := values.length
  let end_col := cols.length
  let afterWrite : Sheet := fun r =>
    if 1 ≤ r ∧ r ≤ end_row then values.getD (r - 1) [] else []
  if 0 < clear_below then
    fun r =>
      if end_row + 1 ≤ r ∧ r ≤ end_row + clear_below then List.replicate end_col []
      else afterWrite r
  else afterWrite

/-- One digit-or-underscore pass of Python `int()` over a decimal literal:
underscores are only legal between two digits. -/
def digitsLoop : List Char → Nat → Option Nat
  | [], acc => some acc
  | c :: rest, acc =>
    if c.isDigit then digitsLoop rest (acc * 10 + (c.toNat - 48))
    else if c = '_' then
      match rest with
      | d :: _ => if d.isDigit then digitsLoop rest acc else none
      | [] => none
    else none

/-- The digit block of a Python decimal int literal: must start with a digit. -/
def parseDigits (l : List Char) : Option Nat :=
  match l with
  | c :: _ => if c.isDigit then digitsLoop l 0 else none
  | [] => none

/-- Python `int()` applied to a string: surrounding whitespace, an optional
sign, then a non-empty digit block (with digit-group underscores); anything
else raises, modelled as `none`. -/
def pyInt (s : Str) : Option Int :=
  match pyStrip s with
  | '+' :: rest => (parseDigits rest).map (fun n => (n : Int))
  | '-' :: rest => (parseDigits rest).map (fun n => -(n : Int))
  | t => (parseDigits t).map (fun n => (n : Int))

/-- A competitor entry of a scoreboard event (`competitions[0].competitors[i]`):
`homeAway`, `team.displayName` and `score` as optionally-present strings. -/
structure Competitor where
  homeAway : Option Str
  teamName : Option Str
  score : Option Str
deriving DecidableEq

/-- The venue fields read by `combine_location` (`scripts/scrape_games.py`). -/
structure Venue where
  fullName : Option Str
  city : Option Str
  state : Option Str
deriving DecidableEq

/-- A scoreboard competition: completion flag (`status.type.completed`,
defaulting to false when absent), competitors, `neutralSite`, venue. -/
structure Competition where
  completed : Bool
  competitors : List Competitor
  neutralSite : Bool
  venue : Venue
deriving DecidableEq

/-- A scoreboard event as consumed by `parse_completed_games`. -/
structure Event where
  competitions : List Competition
deriving DecidableEq

/-- `", ".join(parts)` for Python. -/
def joinComma : List Str → Str
  | [] => []
  | [x] => x
  | x :: rest => x ++ ", ".toList ++ joinComma rest

/-- `combine_location` from `scripts/scrape_games.py`. -/
def combine_location (v : Venue) : Str :=
  let name := clean v.fullName
  let city := clean v.city
  let state := clean v.state
  let place := joinComma ([city, state].filter (fun p => decide (p ≠ [])))
  if name ≠ [] ∧ place ≠ [] then name ++ " — ".toList ++ place
  else if name ≠ [] then name else place

/-- The game dictionary yielded by `parse_completed_games`. -/
structure PGame where
  home_team : Str
  home_score : Int
  away_team : Str
  away_score : Int
  is_neutral : Bool
  location : Str
deriving DecidableEq

/-- The home/away slots of the `rec` dictionary while the competitor loop of
`parse_completed_games` runs: each slot holds the cleaned team name and the
(possibly failed) parsed score once its side has been seen. -/
structure SideAcc where
  home : Option (Str × Option Int)
  away : Option (Str × Option Int)
deriving DecidableEq

/-- The competitor loop of `parse_completed_games` (lines 98-111): a
competitor flagged `home` fills the home slot, one flagged `away` fills the
away slot, any other flag is ignored; `int()` failure leaves the score
`None`. -/
def assignSides (cs : List Competitor) : SideAcc :=
  cs.foldl
    (fun acc c =>
      let team_name := clean c.teamName
      let score := c.score.bind pyInt
      if c.homeAway = some "home".toList then { acc with home := some (team_name, score) }
      else if c.homeAway = some "away".toList then { acc with away := some (team_name, score) }
      else acc)
    ⟨none, none⟩

/-- The per-event body of `parse_completed_games` (`scripts/scrape_games.py`,
lines 79-118): skip events with no competition, not completed, without
exactly two competitors, with a missing side, or with an unparseable score. -/
def parseEvent (ev : Event) : Option PGame :=
  match ev.competitions with
  | [] => none
  | comp :: _ =>
    if comp.completed = false then none
    else if comp.competitors.length ≠ 2 then none
    else
      let acc := assignSides comp.competitors
      match acc.home, acc.away with
      | some (ht, some hs), some (at_, some as_) =>
        some
          { home_team := ht, home_score := hs, away_team := at_, away_score := as_
            is_neutral := comp.neutralSite, location := combine_location comp.venue }
      | _, _ => none

/-- `parse_completed_games` from `scripts/scrape_games.py`, as the list of
yielded game dictionaries. -/
def parse_completed_games (events : List Event) : List PGame :=
  events.filterMap parseEvent

/-- One output row of `build_rows` (`scripts/scrape_games.py`). -/
structure OutRow where
  winner_team : Str
  winner_score : Int
  loser_team : Str
  loser_score : Int
  location : Str
  site_designation : Str
deriving DecidableEq

/-- The per-game body of `build_rows` (`scripts/scrape_games.py`,
lines 122-141). -/
def buildRow (g : PGame) : OutRow :=
  let home_win := g.away_score < g.home_score
  { winner_team := if home_win then g.home_team else g.away_team
    winner_score := max g.home_score g.away_score
    loser_team := if home_win then g.away_team else g.home_team
    loser_score := min g.home_score g.away_score
    location := g.location
    site_designation :=
      if g.is_neutral then "N".toList else if home_win then "H".toList else "A".toList }

/-- `build_rows` from `scripts/scrape_games.py`. -/
def build_rows (games : List PGame) : List OutRow := games.map buildRow

/-- A raw scoreboard event as paged by `fetch_scoreboard_all`: its provider
identifier (`ev.get("id")`, possibly absent) plus an opaque payload standing
for the rest of the record. -/
structure RawEvent where
  id : Option Str
  payload : Nat
deriving DecidableEq

/-- Python truthiness of `ev.get("id")`: present and non-empty. -/
def idTruthy : Option Str → Bool
  | none => false
  | some s => decide (s ≠ [])

/-- The per-page event loop of `fetch_scoreboard_all`
(`scripts/scrape_games.py`, lines 58-64): keep the events whose truthy id has
not been seen, extend `seen`, and count the newly seen ones.  Returns
(collected events, final seen set, new-id count); the `seen` set is modelled
as the list of inserted ids. -/
def collectNew (seen : List Str) (events : List RawEvent) :
    List RawEvent × List Str × Nat :=
  match events with
  | [] => ([], seen, 0)
  | ev :: rest =>
    match ev.id with
    | some i =>
      if i ≠ [] ∧ i ∉ seen then
        let res := collectNew (i :: seen) rest
        (ev :: res.1, res.2.1, res.2.2 + 1)
      else collectNew seen rest
    | none => collectNew seen rest

/-- The paging loop of `fetch_scoreboard_all` (`scripts/scrape_games.py`,
lines 41-69) over the provider's successive page responses: an empty page
stops before collecting; otherwise the page's unseen events are collected and
paging stops when the page introduced no new id or was shorter than the
requested page size.  Returns the emitted events and the number of pages
requested. -/
def fetchAux (seen : List Str) (page_size : Nat) :
    List (List RawEvent) → List RawEvent × Nat
  | [] => ([], 0)
  | events :: rest =>
    if events = [] then ([], 1)
    else
      let step := collectNew seen events
      if step.2.2 = 0 ∨ events.length < page_size then (step.1, 1)
      else
        let res := fetchAux step.2.1 page_size rest
        (step.1 ++ res.1, res.2 + 1)

/-- `fetch_scoreboard_all` from `scripts/scrape_games.py`: all events for one
date, starting from an empty seen set. -/
def fetch_scoreboard_all (pages : List (List RawEvent)) (page_size : Nat) :
    List RawEvent × Nat :=
  fetchAux [] page_size pages

/-- The seen set accumulated after the collection loop has processed the
first `k` pages, starting from the seed `seen`; written against the spec's
description of the termination policy (used to state when a page "introduces
zero previously-unseen event identifiers"). -/
def seenFrom (seen : List Str) (pages : List (List RawEvent)) : Nat → List Str
  | 0 => seen
  | k + 1 => (collectNew (seenFrom seen pages k) (pages.getD k [])).2.1

/-- The spec's stop condition at page `k`, for a run seeded with `seen`: the
page is empty, or introduces zero previously-unseen identifiers, or is
shorter than the page size. -/
def stopsFrom (seen : List Str) (pages : List (List RawEvent)) (page_size k : Nat) : Prop :=
  pages.getD k [] = [] ∨
    (collectNew (seenFrom seen pages k) (pages.getD k [])).2.2 = 0 ∨
    (pages.getD k []).length < page_size

/-- The spec's stop condition at page `k` for a full fetch (empty initial
seen set). -/
def stopsAt (pages : List (List RawEvent)) (page_size k : Nat) : Prop :=
  stopsFrom [] pages page_size k

/-- The spec's Duke/Army scenario event: completed, home team "Duke" with
score 80, away team "Army" with score 60, neutrality as given. -/
def dukeEvent (neutral : Bool) : Event :=
  { competitions :=
      [{ completed := true
         competitors :=
           [⟨some "home".toList, some "Duke".toList, some "80".toList⟩,
             ⟨some "away".toList, some "Army".toList, some "60".toList⟩]
         neutralSite := neutral
         venue := ⟨none, none, none⟩ }] }

/-- The game dictionary the extractor yields for `dukeEvent`. -/
def dukeGame (neutral : Bool) : PGame :=
  { home_team := "Duke".toList, home_score := 80
    away_team := "Army".toList, away_score := 60
    is_neutral := neutral, location := [] }

end BracketUpdate

namespace BracketUpdate

theorem dropWhile_head_false (p : Char → Bool) (l : Str) (a : Char) (m : Str)
    (h : List.dropWhile p l = a :: m) : p a = false := by
  induction l with
  | nil => simp [List.dropWhile] at h
  | cons b l ih =>
    rw [List.dropWhile_cons] at h
    by_cases hb : p b
    · rw [if_pos hb] at h
      exact ih h
    · rw [if_neg hb] at h
      cases h
      simpa using hb

theorem dropWhile_of_strip (p : Char → Bool) (s : Str) :
    List.dropWhile p (List.rdropWhile p (List.dropWhile p s)) =
      List.rdropWhile p (List.dropWhile p s) := by
  cases hx : List.rdropWhile p (List.dropWhile p s) with
  | nil => rfl
  | cons a l =>
    have hpre := List.rdropWhile_prefix p (List.dropWhile p s)
    rw [hx] at hpre
    obtain ⟨t, ht⟩ := hpre
    rw [List.cons_append] at ht
    have ha : p a = false := dropWhile_head_false p s a (l ++ t) ht.symm
    rw [List.dropWhile_cons, ha]
    simp

theorem pyStrip_idem (s : Str) : pyStrip (pyStrip s) = pyStrip s := by
  unfold pyStrip
  rw [dropWhile_of_strip, List.rdropWhile_idempotent]

theorem normalize_idem (x : Option Str) :
    normalize (some (normalize x)) = normalize x := by
  cases x with
  | none => rfl
  | some v =>
    by_cases hbad : lowerStr (pyStrip v) = "nan".toList ∨
        lowerStr (pyStrip v) = "none".toList ∨ lowerStr (pyStrip v) = "null".toList
    · have h1 : normalize (some v) = [] := by
        simp only [normalize]
        rw [if_pos hbad]
      rw [h1]
      rfl
    · have h1 : normalize (some v) = pyStrip v := by
        simp only [normalize]
        rw [if_neg hbad]
      rw [h1]
      simp only [normalize, pyStrip_idem]
      rw [if_neg hbad]

theorem clean_idem (x : Option Str) :
    clean (some (clean x)) = clean x := by
  cases x with
  | none => rfl
  | some v =>
    by_cases hbad : lowerStr (pyStrip v) = [] ∨ lowerStr (pyStrip v) = "nan".toList ∨
        lowerStr (pyStrip v) = "none".toList ∨ lowerStr (pyStrip v) = "null".toList
    · have h1 : clean (some v) = [] := by
        simp only [clean]
        rw [if_pos hbad]
      rw [h1]
      rfl
    · have h1 : clean (some v) = pyStrip v := by
        simp only [clean]
        rw [if_neg hbad]
      rw [h1]
      simp only [clean, pyStrip_idem]
      rw [if_neg hbad]

/-- Claim C10: the cell normalizer is idempotent — `normalize (normalize x)`
equals `normalize x` for every input value, so the `row_key` fingerprint of an
already-normalized row is the row itself, and the scrape-side `clean` is
idempotent as well; re-normalizing rows read back from the sheet cannot
change their dedupe identity. -/
theorem C10_normalizer_idempotent :
    (∀ x : Option Str, normalize (some (normalize x)) = normalize x) ∧
    (∀ vals : List Str, row_key (row_key vals) = row_key vals) ∧
    (∀ x : Option Str, clean (some (clean x)) = clean x) := by
  refine ⟨normalize_idem, ?_, clean_idem⟩
  intro vals
  induction vals with
  | nil => rfl
  | cons v t ih =>
    simp only [row_key, List.map_cons] at ih ⊢
    rw [normalize_idem (some v), ih]

theorem lastNEAux_acc_le (col : List (List Str)) :
    ∀ i last : Nat, last ≤ i → last ≤ lastNEAux i last col := by
  induction col with
  | nil =>
    intro i last _
    exact Nat.le_refl last
  | cons row rest ih =>
    intro i last h
    simp only [lastNEAux]
    by_cases hne : normalize (some (row.headD [])) ≠ []
    · rw [if_pos hne]
      exact Nat.le_trans h (ih (i + 1) i (by omega))
    · rw [if_neg hne]
      exact ih (i + 1) last (by omega)

theorem lastNEAux_ge (col : List (List Str)) :
    ∀ i last : Nat, last ≤ i → ∀ j, ∀ hj : j < col.length,
      normalize (some ((col.get ⟨j, hj⟩).headD [])) ≠ [] →
      i + j ≤ lastNEAux i last col := by
  induction col with
  | nil =>
    intro i last _ j hj
    exact absurd hj (by simp)
  | cons row rest ih =>
    intro i last h j hj hne
    simp only [lastNEAux]
    cases j with
    | zero =>
      have hr : normalize (some (row.headD [])) ≠ [] := hne
      rw [if_pos hr]
      have := lastNEAux_acc_le rest (i + 1) i (by omega)
      omega
    | succ j' =>
      have hj' : j' < rest.length := by simpa using hj
      have hne' : normalize (some ((rest.get ⟨j', hj'⟩).headD [])) ≠ [] := hne
      by_cases hr : normalize (some (row.headD [])) ≠ []
      · rw [if_pos hr]
        have := ih (i + 1) i (by omega) j' hj' hne'
        omega
      · rw [if_neg hr]
        have := ih (i + 1) last (by omega) j' hj' hne'
        omega

theorem lastNEAux_cases (col : List (List Str)) :
    ∀ i last : Nat,
      lastNEAux i last col = last ∨
        ∃ j, ∃ hj : j < col.length,
          normalize (some ((col.get ⟨j, hj⟩).headD [])) ≠ [] ∧
            lastNEAux i last col = i + j := by
  induction col with
  | nil =>
    intro i last
    left
    rfl
  | cons row rest ih =>
    intro i last
    simp only [lastNEAux]
    by_cases hr : normalize (some (row.headD [])) ≠ []
    · rw [if_pos hr]
      rcases ih (i + 1) i with h | ⟨j, hj, hne, heq⟩
      · right
        refine ⟨0, by simp, hr, ?_⟩
        rw [h]
        omega
      · right
        refine ⟨j + 1, by simpa using Nat.succ_lt_succ hj, hne, ?_⟩
        rw [heq]
        omega
    · rw [if_neg hr]
      rcases ih (i + 1) last with h | ⟨j, hj, hne, heq⟩
      · left
        exact h
      · right
        refine ⟨j + 1, by simpa using Nat.succ_lt_succ hj, hne, ?_⟩
        rw [heq]
        omega

/-- Claim C2: the Sheet Locator returns the 1-based index of the last row of
the column whose post-normalization value is non-empty, scanning the whole
column: every non-empty row index is a lower bound witness, the returned
index (when non-zero) points at a non-empty row, the result is 0 when every
cell normalizes to empty, and the result never exceeds the column length —
so a non-empty row past a gap of empties still advances the result. -/
theorem C2_sheet_locator (col : List (List Str)) :
    (∀ j, ∀ hj : j < col.length,
        normalize (some ((col.get ⟨j, hj⟩).headD [])) ≠ [] →
        j + 1 ≤ last_nonempty_row_in_col_a col) ∧
    (last_nonempty_row_in_col_a col ≠ 0 →
        ∃ hj : last_nonempty_row_in_col_a col - 1 < col.length,
          normalize (some ((col.get ⟨last_nonempty_row_in_col_a col - 1, hj⟩).headD [])) ≠ []) ∧
    ((∀ j, ∀ hj : j < col.length, normalize (some ((col.get ⟨j, hj⟩).headD [])) = []) →
        last_nonempty_row_in_col_a col = 0) ∧
    last_nonempty_row_in_col_a col ≤ col.length := by
  simp only [last_nonempty_row_in_col_a]
  have hge := lastNEAux_ge col 1 0 (by omega)
  have hcases := lastNEAux_cases col 1 0
  refine ⟨?_, ?_, ?_, ?_⟩
  · intro j hj hne
    have := hge j hj hne
    omega
  · intro h0
    rcases hcases with h | ⟨j, hj, hne, heq⟩
    · exact absurd h h0
    · have key : ∀ n, n = 1 + j →
          ∃ hh : n - 1 < col.length,
            normalize (some ((col.get ⟨n - 1, hh⟩).headD [])) ≠ [] := by
        intro n hn
        subst hn
        simp only [Nat.add_sub_cancel_left]
        exact ⟨hj, hne⟩
      exact key _ heq
  · intro hall
    rcases hcases with h | ⟨j, hj, hne, heq⟩
    · exact h
    · exact absurd (hall j hj) hne
  · rcases hcases with h | ⟨j, hj, hne, heq⟩
    · rw [h]
      omega
    · rw [heq]
      omega

/-- Witness for C2: a column non-empty at rows 1-5 and 9, empty at 6-8 —
the locator returns 9, the deeper index past the gap, not 5. -/
theorem C2_sheet_locator_witness :
    last_nonempty_row_in_col_a
        [["x".toList], ["x".toList], ["x".toList], ["x".toList], ["x".toList],
          [], [], [], ["y".toList]] = 9 ∧
      8 + 1 ≤
        last_nonempty_row_in_col_a
          [["x".toList], ["x".toList], ["x".toList], ["x".toList], ["x".toList],
            [], [], [], ["y".toList]] := by
  constructor
  · decide
  · exact
      (C2_sheet_locator
            [["x".toList], ["x".toList], ["x".toList], ["x".toList], ["x".toList],
              [], [], [], ["y".toList]]).1
        8 (by decide) (by decide)

theorem dedupeFilter_kept (keys : List (List Str)) (batch : List (List Str)) :
    (dedupeFilter keys batch).1 =
      (batch.map (fun r => r.map (fun v => normalize (some v)))).filter
        (fun vals => decide (row_key vals ∉ keys)) := by
  induction batch with
  | nil => rfl
  | cons r rest ih =>
    simp only [dedupeFilter, List.map_cons, List.filter_cons]
    by_cases hmem : row_key (r.map (fun v => normalize (some v))) ∈ keys
    · rw [if_pos hmem]
      simp only [hmem, not_true, decide_False]
      exact ih
    · rw [if_neg hmem]
      simp only [hmem, not_false_iff, decide_True, if_true]
      rw [ih]

theorem dedupeFilter_dupes (keys : List (List Str)) (batch : List (List Str)) :
    (dedupeFilter keys batch).2 =
      ((batch.map (fun r => r.map (fun v => normalize (some v)))).filter
        (fun vals => decide (row_key vals ∈ keys))).length := by
  induction batch with
  | nil => rfl
  | cons r rest ih =>
    simp only [dedupeFilter, List.map_cons, List.filter_cons]
    by_cases hmem : row_key (r.map (fun v => normalize (some v))) ∈ keys
    · rw [if_pos hmem]
      simp only [hmem, decide_True, if_true, List.length_cons]
      rw [ih]
    · rw [if_neg hmem]
      simp only [hmem, decide_False]
      exact ih

theorem existingKeys_window (L K : Nat) (sheet : Sheet) (hL : 0 < L) (hK : 0 < K) :
    existingKeys L K sheet =
      (List.range' (max 1 (L - K + 1)) (min L K)).map
        (fun i => row_key (pad6 (sheet i))) := by
  simp only [existingKeys, sheetGet, if_pos (And.intro hL hK), List.map_map]
  have harith : L + 1 - max 1 (L - K + 1) = min L K := by omega
  rw [harith]
  rfl

/-- Claim C1: the dedupe filter's key set is exactly the fingerprints of the
existing rows in the window `[max 1 (L - K + 1), L]` (and empty when `L = 0`
or `K = 0`); an incoming row is dropped and counted iff its normalized
fingerprint is in that pre-existing set, the set is never extended with
incoming rows — so the kept rows are precisely the batch rows whose
fingerprint is absent from the window (sibling duplicates inside the batch
are all kept), the duplicate count tallies every batch row whose fingerprint
is present (window duplicates are each counted), and with `L = 0` or `K = 0`
nothing is dropped. -/
theorem C1_dedupe_filter (L K : Nat) (sheet : Sheet) (batch : List (List Str)) :
    ((dedupeFilter (existingKeys L K sheet) batch).1 =
        (batch.map (fun r => r.map (fun v => normalize (some v)))).filter
          (fun vals => decide (row_key vals ∉ existingKeys L K sheet))) ∧
    ((dedupeFilter (existingKeys L K sheet) batch).2 =
        ((batch.map (fun r => r.map (fun v => normalize (some v)))).filter
          (fun vals => decide (row_key vals ∈ existingKeys L K sheet))).length) ∧
    (0 < L → 0 < K →
        existingKeys L K sheet =
          (List.range' (max 1 (L - K + 1)) (min L K)).map
            (fun i => row_key (pad6 (sheet i)))) ∧
    (L = 0 ∨ K = 0 →
        existingKeys L K sheet = [] ∧
          (dedupeFilter (existingKeys L K sheet) batch).1 =
            batch.map (fun r => r.map (fun v => normalize (some v))) ∧
          (dedupeFilter (existingKeys L K sheet) batch).2 = 0) := by
  refine ⟨dedupeFilter_kept _ _, dedupeFilter_dupes _ _,
    fun hL hK => existingKeys_window L K sheet hL hK, ?_⟩
  intro h0
  have hkeys : existingKeys L K sheet = [] := by
    simp only [existingKeys]
    rw [if_neg]
    rcases h0 with h | h <;> omega
  refine ⟨hkeys, ?_, ?_⟩
  · rw [dedupeFilter_kept, hkeys]
    simp
  · rw [dedupeFilter_dupes, hkeys]
    simp

/-- Witness for C1: for a sheet whose single row holds `"a"` in every cell,
`L = 1`, `K = 3`, and a batch of two copies of that row plus two copies of a
fresh row, the window key set is the one-row window map, both existing
duplicates are dropped (count 2), both fresh sibling rows are kept, and with
`L = 0` the key set is empty and nothing is dropped. -/
theorem C1_dedupe_filter_witness :
    (existingKeys 1 3 (fun i => if i = 1 then List.replicate 6 "a".toList else []) =
        (List.range' (max 1 (1 - 3 + 1)) (min 1 3)).map
          (fun i =>
            row_key
              (pad6 ((fun i => if i = 1 then List.replicate 6 "a".toList else []) i)))) ∧
    ((dedupeFilter
          (existingKeys 1 3 (fun i => if i = 1 then List.replicate 6 "a".toList else []))
          [List.replicate 6 "a".toList, List.replicate 6 "a".toList,
            List.replicate 6 "b".toList, List.replicate 6 "b".toList]).2 = 2) ∧
    ((dedupeFilter
          (existingKeys 1 3 (fun i => if i = 1 then List.replicate 6 "a".toList else []))
          [List.replicate 6 "a".toList, List.replicate 6 "a".toList,
            List.replicate 6 "b".toList, List.replicate 6 "b".toList]).1.length = 2) ∧
    ((dedupeFilter
          (existingKeys 0 3 (fun i => if i = 1 then List.replicate 6 "a".toList else []))
          [List.replicate 6 "a".toList]).2 = 0) := by
  refine ⟨?_, by decide, by decide, ?_⟩
  · exact
      (C1_dedupe_filter 1 3 (fun i => if i = 1 then List.replicate 6 "a".toList else [])
            []).2.2.1
        (by decide) (by decide)
  · exact
      ((C1_dedupe_filter 0 3 (fun i => if i = 1 then List.replicate 6 "a".toList else [])
            [List.replicate 6 "a".toList]).2.2.2
        (Or.inl rfl)).2.2

/-- Claim C4: for every extracted game, `winner_score` is the maximum and
`loser_score` the minimum of the two scores, the competitor with the strictly
greater score supplies the winner (and the other the loser), and
`site_designation` is `"N"` for a neutral venue and otherwise `"H"` when the
home side wins and `"A"` when the away side wins. -/
theorem C4_build_rows (g : PGame) :
    (buildRow g).winner_score = max g.home_score g.away_score ∧
    (buildRow g).loser_score = min g.home_score g.away_score ∧
    (buildRow g).location = g.location ∧
    (g.away_score < g.home_score →
        (buildRow g).winner_team = g.home_team ∧ (buildRow g).loser_team = g.away_team) ∧
    (g.home_score < g.away_score →
        (buildRow g).winner_team = g.away_team ∧ (buildRow g).loser_team = g.home_team) ∧
    (g.is_neutral = true → (buildRow g).site_designation = "N".toList) ∧
    (g.is_neutral = false → g.away_score < g.home_score →
        (buildRow g).site_designation = "H".toList) ∧
    (g.is_neutral = false → g.home_score < g.away_score →
        (buildRow g).site_designation = "A".toList) := by
  refine ⟨rfl, rfl, rfl, ?_, ?_, ?_, ?_, ?_⟩
  · intro hw
    constructor <;> simp [buildRow, hw]
  · intro hw
    have hw' : ¬ g.away_score < g.home_score := by omega
    constructor <;> simp [buildRow, hw']
  · intro hn
    simp [buildRow, hn]
  · intro hn hw
    simp [buildRow, hn, hw]
  · intro hn hw
    have hw' : ¬ g.away_score < g.home_score := by omega
    simp [buildRow, hn, hw']

/-- Witness for C4: the Duke/Army scoreboard event yields winner "Duke" 80,
loser "Army" 60, site "H"; the same event marked neutral yields site "N". -/
theorem C4_build_rows_witness :
    ((build_rows (parse_completed_games [dukeEvent false])).map
        (fun r => (r.winner_team, r.winner_score, r.loser_team, r.loser_score,
          r.site_designation)) =
      [("Duke".toList, (80 : Int), "Army".toList, (60 : Int), "H".toList)]) ∧
    ((build_rows (parse_completed_games [dukeEvent true])).map
        (fun r => r.site_designation) = ["N".toList]) ∧
    (buildRow (dukeGame false)).site_designation = "H".toList ∧
    (buildRow (dukeGame true)).site_designation = "N".toList ∧
    (buildRow (dukeGame false)).winner_team = (dukeGame false).home_team := by
  refine ⟨by decide, by decide, ?_, ?_, ?_⟩
  · exact (C4_build_rows (dukeGame false)).2.2.2.2.2.2.1 rfl (by decide)
  · exact (C4_build_rows (dukeGame true)).2.2.2.2.2.1 rfl
  · exact ((C4_build_rows (dukeGame false)).2.2.2.1 (by decide)).1

/-- Claim C5 counterexample: an empty CSV (a dataframe with zero data rows)
makes `main` print "CSV is empty. Nothing to write." and return normally, so
the process exits with status 0, not a non-zero status. -/
theorem C5_counterexample :
    appendCsvStage CSV_COLS [] =
        CsvStage.earlyExitEmpty "CSV is empty. Nothing to write.".toList ∧
      stageExitCode (appendCsvStage CSV_COLS []) = some 0 ∧
      ¬ ∃ n, stageExitCode (appendCsvStage CSV_COLS []) = some n ∧ n ≠ 0 := by
  refine ⟨by decide, by decide, ?_⟩
  rintro ⟨n, hn, hne⟩
  have : n = 0 := by
    have h0 : stageExitCode (appendCsvStage CSV_COLS []) = some 0 := by decide
    rw [h0] at hn
    exact (Option.some_inj.mp hn).symm
  exact hne this

/-- Claim C5 as amended: when the input CSV parses to zero data rows, the
append script prints "CSV is empty. Nothing to write." and returns normally
with exit status 0, performing no sheet operation (while a missing required
column does raise and exit non-zero). -/
theorem C5_amended_empty_csv (cols : List Str) (rows : List (List Str))
    (h : rows = []) :
    appendCsvStage cols rows =
        CsvStage.earlyExitEmpty "CSV is empty. Nothing to write.".toList ∧
      stageExitCode (appendCsvStage cols rows) = some 0 := by
  subst h
  refine ⟨?_, ?_⟩ <;> simp [appendCsvStage, stageExitCode]

/-- Witness for the amended C5 at a concrete empty CSV. -/
theorem C5_amended_empty_csv_witness :
    appendCsvStage CSV_COLS [] =
        CsvStage.earlyExitEmpty "CSV is empty. Nothing to write.".toList ∧
      stageExitCode (appendCsvStage CSV_COLS []) = some 0 :=
  C5_amended_empty_csv CSV_COLS [] rfl

/-- Claim C6 counterexample: overwriting a 700-row tab with a CSV of 500 data
rows and clear-below = 500 leaves the 500th data row in sheet row 501 (the
header occupies row 1), so row 501 holds data — it is neither a blanked row
nor empty, contradicting "rows 501-1000 are blanked". -/
theorem C6_counterexample :
    overwrite_tab (fun r => if 1 ≤ r ∧ r ≤ 700 then List.replicate 6 "old".toList else [])
          CSV_COLS (List.replicate 500 (List.replicate 6 "x".toList)) 500 501 =
        List.replicate 6 "x".toList ∧
      overwrite_tab (fun r => if 1 ≤ r ∧ r ≤ 700 then List.replicate 6 "old".toList else [])
          CSV_COLS (List.replicate 500 (List.replicate 6 "x".toList)) 500 501 ≠
        List.replicate 6 ([] : Str) ∧
      overwrite_tab (fun r => if 1 ≤ r ∧ r ≤ 700 then List.replicate 6 "old".toList else [])
          CSV_COLS (List.replicate 500 (List.replicate 6 "x".toList)) 500 501 ≠ [] := by
  refine ⟨?_, ?_, ?_⟩ <;> decide

/-- Claim C6 as amended: a full-refresh overwrite with a header and `n` data
rows and clear-below `cb` puts the header and the normalized data in rows 1
through `n + 1`, blanks rows `n + 2` through `n + 1 + cb`, leaves every row
past `n + 1 + cb` empty, and depends in no way on the tab's previous
contents (the tab is cleared first), so no stale data remains anywhere. -/
theorem C6_overwrite_amended (sheet : Sheet) (cols : List Str)
    (data : List (List Str)) (cb r : Nat) :
    (1 ≤ r → r ≤ data.length + 1 →
        overwrite_tab sheet cols data cb r =
          (cols :: data.map (fun row => row.map (fun v => norm (some v)))).getD (r - 1) []) ∧
    (data.length + 2 ≤ r → r ≤ data.length + 1 + cb →
        overwrite_tab sheet cols data cb r = List.replicate cols.length []) ∧
    (data.length + 1 + cb < r → overwrite_tab sheet cols data cb r = []) ∧
    (∀ sheet₂, overwrite_tab sheet cols data cb r = overwrite_tab sheet₂ cols data cb r) := by
  have hlen : (cols :: data.map (fun row => row.map (fun v => norm (some v)))).length =
      data.length + 1 := by simp
  refine ⟨?_, ?_, ?_, fun sheet₂ => rfl⟩
  · intro h1 h2
    simp only [overwrite_tab, hlen]
    by_cases hcb : 0 < cb
    · rw [if_pos hcb, if_neg (by omega), if_pos (by omega)]
    · rw [if_neg hcb, if_pos (by omega)]
  · intro h1 h2
    have hcb : 0 < cb := by omega
    simp only [overwrite_tab, hlen]
    rw [if_pos hcb, if_pos (by omega)]
  · intro h1
    simp only [overwrite_tab, hlen]
    by_cases hcb : 0 < cb
    · rw [if_pos hcb, if_neg (by omega), if_neg (by omega)]
    · rw [if_neg hcb, if_neg (by omega)]

/-- Witness for the amended C6 at a one-data-row CSV with clear-below 2:
row 2 holds the written data, row 3 is a blanked row, row 5 is empty. -/
theorem C6_overwrite_amended_witness :
    (overwrite_tab (fun _ => []) CSV_COLS [List.replicate 6 "x".toList] 2 2 =
        (CSV_COLS ::
            [List.replicate 6 "x".toList].map
              (fun row => row.map (fun v => norm (some v)))).getD 1 []) ∧
    (overwrite_tab (fun _ => []) CSV_COLS [List.replicate 6 "x".toList] 2 3 =
        List.replicate CSV_COLS.length []) ∧
    overwrite_tab (fun _ => []) CSV_COLS [List.replicate 6 "x".toList] 2 5 = [] := by
  refine ⟨?_, ?_, ?_⟩
  · exact
      (C6_overwrite_amended (fun _ => []) CSV_COLS [List.replicate 6 "x".toList] 2 2).1
        (by decide) (by decide)
  · exact
      (C6_overwrite_amended (fun _ => []) CSV_COLS [List.replicate 6 "x".toList] 2 3).2.1
        (by decide) (by decide)
  · exact
      (C6_overwrite_amended (fun _ => []) CSV_COLS [List.replicate 6 "x".toList] 2 5).2.2.1
        (by decide)

/-- Claim C7: for every start row `S` and non-empty row block, the writer
issues one bounded range write ending exactly at inclusive row
`S + N - 1` — rows outside that range are untouched, row `S + j` receives the
`j`-th block row — reading the identical range back returns the block, and
the verify step turns every read-back result (matching or not) into a report
carrying both the intended and the read-back row counts, never an
exception. -/
theorem C7_sheet_writer (sheet : Sheet) (S : Nat) (rows : List (List Str))
    (hr : rows ≠ []) :
    (∀ r, r < S ∨ S + rows.length - 1 < r → sheetUpdate sheet S rows r = sheet r) ∧
    (∀ j, ∀ hj : j < rows.length, sheetUpdate sheet S rows (S + j) = rows.get ⟨j, hj⟩) ∧
    sheetGet (sheetUpdate sheet S rows) S (S + rows.length - 1) = rows ∧
    (∀ written_back, verifyReport S rows written_back =
        { write_start := S, write_end := S + rows.length - 1, new_rows := rows.length,
          rows_read_back := written_back.length }) := by
  have hlen : 0 < rows.length := List.length_pos.mpr hr
  have hupd : ∀ j, ∀ hj : j < rows.length,
      sheetUpdate sheet S rows (S + j) = rows.get ⟨j, hj⟩ := by
    intro j hj
    simp only [sheetUpdate]
    rw [if_pos (by omega), show S + j - S = j by omega]
    rw [List.getD_eq_getElem _ _ hj]
    simp
  refine ⟨?_, hupd, ?_, fun written_back => rfl⟩
  · intro r hout
    simp only [sheetUpdate]
    rw [if_neg (by omega)]
  · apply List.ext_get
    · simp only [sheetGet, List.length_map, List.length_range']
      omega
    · intro i h1 h2
      simp only [sheetGet, List.get_eq_getElem, List.getElem_map, List.getElem_range',
        one_mul]
      have hi : i < rows.length := by
        simp only [sheetGet, List.length_map, List.length_range'] at h1
        omega
      have := hupd i hi
      simp only [List.get_eq_getElem] at this
      exact this

/-- Witness for C7: writing the single row `["a"]` at start row 2 leaves row
1 untouched, reads back exactly the written block, and a mismatching
read-back of zero rows still yields a report with intended count 1 and
read-back count 0. -/
theorem C7_sheet_writer_witness :
    sheetUpdate (fun _ => []) 2 [["a".toList]] 1 = (fun _ => ([] : List Str)) 1 ∧
    sheetGet (sheetUpdate (fun _ => []) 2 [["a".toList]]) 2 2 = [["a".toList]] ∧
    verifyReport 2 [["a".toList]] [] =
      { write_start := 2, write_end := 2, new_rows := 1, rows_read_back := 0 } := by
  refine ⟨?_, ?_, ?_⟩
  · exact
      (C7_sheet_writer (fun _ => []) 2 [["a".toList]] (by decide)).1 1 (Or.inl (by decide))
  · exact (C7_sheet_writer (fun _ => []) 2 [["a".toList]] (by decide)).2.2.1
  · exact (C7_sheet_writer (fun _ => []) 2 [["a".toList]] (by decide)).2.2.2 []

/-- Claim C9: the incremental append mutates only the computed write range
starting at row `L + 1`: every row with index at most `L` and every row past
the computed end row (`L` plus the number of kept rows) reads back unchanged
after the operation. -/
theorem C9_append_frame (sheet : Sheet) (height : Nat) (batch : List (List Str))
    (lookback r : Nat)
    (h : r ≤ last_nonempty_row_in_col_a (colAOf sheet height) ∨
        last_nonempty_row_in_col_a (colAOf sheet height) +
            (dedupeFilter
              (existingKeys (last_nonempty_row_in_col_a (colAOf sheet height)) lookback
                sheet)
              batch).1.length <
          r) :
    append_games sheet height batch lookback r = sheet r := by
  simp only [append_games]
  by_cases hnil :
    (dedupeFilter
        (existingKeys (last_nonempty_row_in_col_a (colAOf sheet height)) lookback sheet)
        batch).1 = []
  · rw [if_pos hnil]
  · rw [if_neg hnil]
    have hlen :
        0 <
          (dedupeFilter
              (existingKeys (last_nonempty_row_in_col_a (colAOf sheet height)) lookback
                sheet)
              batch).1.length :=
      List.length_pos.mpr hnil
    simp only [sheetUpdate]
    rw [if_neg (by omega)]

theorem assignSides_pair (a b : Competitor) :
    assignSides [a, b] =
      { home :=
          if b.homeAway = some "home".toList then some (clean b.teamName, b.score.bind pyInt)
          else if a.homeAway = some "home".toList then
            some (clean a.teamName, a.score.bind pyInt)
          else none
        away :=
          if b.homeAway = some "away".toList then some (clean b.teamName, b.score.bind pyInt)
          else if a.homeAway = some "away".toList then
            some (clean a.teamName, a.score.bind pyInt)
          else none } := by
  have hHA : ¬ (("home".toList : Str) = "away".toList) := by decide
  have hAH : ¬ (("away".toList : Str) = "home".toList) := by decide
  simp only [assignSides, List.foldl_cons, List.foldl_nil]
  by_cases ha1 : a.homeAway = some "home".toList <;>
    by_cases hb1 : b.homeAway = some "home".toList <;>
      by_cases ha2 : a.homeAway = some "away".toList <;>
        by_cases hb2 : b.homeAway = some "away".toList <;>
          simp_all

/-- Claim C3: the Game Record Extractor yields a record for an event iff the
event's (first) competition is marked completed, has exactly two competitors,
exactly one flagged home and exactly one flagged away, and both competitors'
scores parse as integers; every event failing a criterion produces no output
(and no error — the embedding is a total function), and every event meeting
all of them produces one. -/
theorem C3_extractor (ev : Event) :
    parse_completed_games [ev] ≠ [] ↔
      ∃ comp, ev.competitions.head? = some comp ∧
        comp.completed = true ∧
        comp.competitors.length = 2 ∧
        comp.competitors.countP (fun c => decide (c.homeAway = some "home".toList)) = 1 ∧
        comp.competitors.countP (fun c => decide (c.homeAway = some "away".toList)) = 1 ∧
        ∀ c ∈ comp.competitors, (c.score.bind pyInt).isSome = true := by
  have hlhs : (parse_completed_games [ev] ≠ []) ↔ (parseEvent ev).isSome = true := by
    cases hpe : parseEvent ev <;>
      simp [parse_completed_games, List.filterMap_cons, hpe]
  rw [hlhs]
  rcases hev : ev.competitions with _ | ⟨comp, comps⟩
  · simp [parseEvent, hev]
  · simp only [parseEvent, hev, List.head?_cons, Option.some.injEq]
    by_cases hc : comp.completed = false
    · simp [hc]
    · have hc' : comp.completed = true := by
        cases h : comp.completed
        · exact absurd h hc
        · rfl
      by_cases hl : comp.competitors.length = 2
      · obtain ⟨x, y, hab⟩ := List.length_eq_two.mp hl
        have hHA : ¬ (("home".toList : Str) = "away".toList) := by decide
        have hAH : ¬ (("away".toList : Str) = "home".toList) := by decide
        simp only [hab, hc', assignSides_pair, List.length_cons, List.length_nil,
          List.countP_cons, List.countP_nil, List.mem_cons, List.not_mem_nil]
        by_cases hx1 : x.homeAway = some "home".toList <;>
          by_cases hy1 : y.homeAway = some "home".toList <;>
            by_cases hx2 : x.homeAway = some "away".toList <;>
              by_cases hy2 : y.homeAway = some "away".toList <;>
                rcases hsx : x.score.bind pyInt with _ | sx <;>
                  rcases hsy : y.score.bind pyInt with _ | sy <;>
                    simp_all
      · simp [hc', hl]

/-- Witness for C3: the completed two-competitor Duke/Army event with one
home flag, one away flag, and integer scores is extracted. -/
theorem C3_extractor_witness : parse_completed_games [dukeEvent false] ≠ [] :=
  (C3_extractor (dukeEvent false)).mpr
    ⟨{ completed := true
       competitors :=
         [⟨some "home".toList, some "Duke".toList, some "80".toList⟩,
           ⟨some "away".toList, some "Army".toList, some "60".toList⟩]
       neutralSite := false
       venue := ⟨none, none, none⟩ },
      by decide, rfl, by decide, by decide, by decide, by decide⟩

theorem collectNew_sub (events : List RawEvent) :
    ∀ seen : List Str, ∀ x ∈ seen, x ∈ (collectNew seen events).2.1 := by
  induction events with
  | nil =>
    intro seen x hx
    simpa [collectNew] using hx
  | cons ev rest ih =>
    intro seen x hx
    cases hid : ev.id with
    | none =>
      simp only [collectNew, hid]
      exact ih seen x hx
    | some i =>
      by_cases hcond : i ≠ [] ∧ i ∉ seen
      · simp only [collectNew, hid, if_pos hcond]
        exact ih (i :: seen) x (List.mem_cons_of_mem _ hx)
      · simp only [collectNew, hid, if_neg hcond]
        exact ih seen x hx

theorem collectNew_mem (events : List RawEvent) :
    ∀ seen : List Str, ∀ e ∈ (collectNew seen events).1,
      ∃ i, e.id = some i ∧ i ≠ [] ∧ i ∉ seen ∧ i ∈ (collectNew seen events).2.1 := by
  induction events with
  | nil =>
    intro seen e he
    simp [collectNew] at he
  | cons ev rest ih =>
    intro seen e he
    cases hid : ev.id with
    | none =>
      simp only [collectNew, hid] at he ⊢
      exact ih seen e he
    | some i =>
      by_cases hcond : i ≠ [] ∧ i ∉ seen
      · simp only [collectNew, hid, if_pos hcond] at he ⊢
        rcases List.mem_cons.mp he with rfl | hmem
        · exact ⟨i, hid, hcond.1, hcond.2,
            collectNew_sub rest (i :: seen) i (List.mem_cons_self _ _)⟩
        · obtain ⟨j, hj1, hj2, hj3, hj4⟩ := ih (i :: seen) e hmem
          exact ⟨j, hj1, hj2, fun hjs => hj3 (List.mem_cons_of_mem _ hjs), hj4⟩
      · simp only [collectNew, hid, if_neg hcond] at he ⊢
        exact ih seen e he

theorem collectNew_pairwise (events : List RawEvent) :
    ∀ seen : List Str,
      List.Pairwise (fun x y => x.id ≠ y.id) (collectNew seen events).1 := by
  induction events with
  | nil =>
    intro seen
    simp [collectNew]
  | cons ev rest ih =>
    intro seen
    cases hid : ev.id with
    | none =>
      simp only [collectNew, hid]
      exact ih seen
    | some i =>
      by_cases hcond : i ≠ [] ∧ i ∉ seen
      · simp only [collectNew, hid, if_pos hcond]
        refine List.pairwise_cons.mpr ⟨?_, ih (i :: seen)⟩
        intro e he
        obtain ⟨j, hj1, _, hj3, _⟩ := collectNew_mem rest (i :: seen) e he
        rw [hid, hj1]
        intro hcontra
        have hij : i = j := Option.some_inj.mp hcontra
        exact hj3 (hij ▸ List.mem_cons_self _ _)
      · simp only [collectNew, hid, if_neg hcond]
        exact ih seen

theorem fetchAux_mem (pages : List (List RawEvent)) :
    ∀ seen ps, ∀ e ∈ (fetchAux seen ps pages).1, ∃ i, e.id = some i ∧ i ∉ seen := by
  induction pages with
  | nil =>
    intro seen ps e he
    simp [fetchAux] at he
  | cons events rest ih =>
    intro seen ps e he
    by_cases hemp : events = []
    · simp only [fetchAux, if_pos hemp] at he
      simp at he
    · by_cases hstop : (collectNew seen events).2.2 = 0 ∨ events.length < ps
      · simp only [fetchAux, if_neg hemp, if_pos hstop] at he
        obtain ⟨i, h1, _, h3, _⟩ := collectNew_mem events seen e he
        exact ⟨i, h1, h3⟩
      · simp only [fetchAux, if_neg hemp, if_neg hstop] at he
        rcases List.mem_append.mp he with hmem | hmem
        · obtain ⟨i, h1, _, h3, _⟩ := collectNew_mem events seen e hmem
          exact ⟨i, h1, h3⟩
        · obtain ⟨i, h1, h2⟩ := ih (collectNew seen events).2.1 ps e hmem
          exact ⟨i, h1, fun hs => h2 (collectNew_sub events seen i hs)⟩

theorem fetchAux_pairwise (pages : List (List RawEvent)) :
    ∀ seen ps, List.Pairwise (fun x y => x.id ≠ y.id) (fetchAux seen ps pages).1 := by
  induction pages with
  | nil =>
    intro seen ps
    simp [fetchAux]
  | cons events rest ih =>
    intro seen ps
    by_cases hemp : events = []
    · simp [fetchAux, hemp]
    · by_cases hstop : (collectNew seen events).2.2 = 0 ∨ events.length < ps
      · simp only [fetchAux, if_neg hemp, if_pos hstop]
        exact collectNew_pairwise events seen
      · simp only [fetchAux, if_neg hemp, if_neg hstop]
        refine List.pairwise_append.mpr
          ⟨collectNew_pairwise events seen, ih (collectNew seen events).2.1 ps, ?_⟩
        intro x hx y hy
        obtain ⟨i, hi1, _, _, hi4⟩ := collectNew_mem events seen x hx
        obtain ⟨j, hj1, hj2⟩ := fetchAux_mem rest (collectNew seen events).2.1 ps y hy
        rw [hi1, hj1]
        intro hcontra
        have hij : i = j := Option.some_inj.mp hcontra
        exact hj2 (hij ▸ hi4)

theorem fetchAux_consumed_le (pages : List (List RawEvent)) :
    ∀ seen ps, (fetchAux seen ps pages).2 ≤ pages.length := by
  induction pages with
  | nil =>
    intro seen ps
    simp [fetchAux]
  | cons events rest ih =>
    intro seen ps
    by_cases hemp : events = []
    · simp only [fetchAux, if_pos hemp, List.length_cons]
      omega
    · by_cases hstop : (collectNew seen events).2.2 = 0 ∨ events.length < ps
      · simp only [fetchAux, if_neg hemp, if_pos hstop, List.length_cons]
        omega
      · simp only [fetchAux, if_neg hemp, if_neg hstop, List.length_cons]
        have := ih (collectNew seen events).2.1 ps
        omega

theorem fetchAux_cons_pos (events : List RawEvent) (rest : List (List RawEvent))
    (seen : List Str) (ps : Nat) : 0 < (fetchAux seen ps (events :: rest)).2 := by
  by_cases hemp : events = []
  · simp [fetchAux, hemp]
  · by_cases hstop : (collectNew seen events).2.2 = 0 ∨ events.length < ps
    · simp [fetchAux, hemp, hstop]
    · simp only [fetchAux, if_neg hemp, if_neg hstop]
      omega

theorem seenFrom_cons (events : List RawEvent) (rest : List (List RawEvent))
    (seen : List Str) :
    ∀ k, seenFrom seen (events :: rest) (k + 1) =
      seenFrom (collectNew seen events).2.1 rest k := by
  intro k
  induction k with
  | zero => rfl
  | succ k ih =>
    show (collectNew (seenFrom seen (events :: rest) (k + 1))
        ((events :: rest).getD (k + 1) [])).2.1 =
      (collectNew (seenFrom (collectNew seen events).2.1 rest k) (rest.getD k [])).2.1
    rw [ih, List.getD_cons_succ]

theorem stopsFrom_cons (seen : List Str) (events : List RawEvent)
    (rest : List (List RawEvent)) (ps k : Nat) :
    stopsFrom seen (events :: rest) ps (k + 1) ↔
      stopsFrom (collectNew seen events).2.1 rest ps k := by
  simp only [stopsFrom, List.getD_cons_succ, seenFrom_cons]

theorem fetchAux_no_early_stop (pages : List (List RawEvent)) :
    ∀ seen ps k, k + 1 < (fetchAux seen ps pages).2 → ¬ stopsFrom seen pages ps k := by
  induction pages with
  | nil =>
    intro seen ps k h
    simp [fetchAux] at h
  | cons events rest ih =>
    intro seen ps k h
    by_cases hemp : events = []
    · simp only [fetchAux, if_pos hemp] at h
      omega
    · by_cases hstop : (collectNew seen events).2.2 = 0 ∨ events.length < ps
      · simp only [fetchAux, if_neg hemp, if_pos hstop] at h
        omega
      · simp only [fetchAux, if_neg hemp, if_neg hstop] at h
        cases k with
        | zero =>
          simp only [stopsFrom, List.getD_cons_zero, seenFrom]
          rintro (h1 | h2 | h3)
          · exact hemp h1
          · exact hstop (Or.inl h2)
          · exact hstop (Or.inr h3)
        | succ k' =>
          rw [stopsFrom_cons]
          exact ih (collectNew seen events).2.1 ps k' (by omega)

theorem fetchAux_stop_reason (pages : List (List RawEvent)) :
    ∀ seen ps, (fetchAux seen ps pages).2 < pages.length →
      stopsFrom seen pages ps ((fetchAux seen ps pages).2 - 1) := by
  induction pages with
  | nil =>
    intro seen ps h
    simp [fetchAux] at h
  | cons events rest ih =>
    intro seen ps h
    by_cases hemp : events = []
    · simp only [fetchAux, if_pos hemp]
      simp only [stopsFrom, List.getD_cons_zero, seenFrom]
      exact Or.inl hemp
    · by_cases hstop : (collectNew seen events).2.2 = 0 ∨ events.length < ps
      · simp only [fetchAux, if_neg hemp, if_pos hstop]
        simp only [stopsFrom, List.getD_cons_zero, seenFrom]
        rcases hstop with h2 | h3
        · exact Or.inr (Or.inl h2)
        · exact Or.inr (Or.inr h3)
      · simp only [fetchAux, if_neg hemp, if_neg hstop] at h ⊢
        simp only [List.length_cons] at h
        have hres :
            (fetchAux (collectNew seen events).2.1 ps rest).2 < rest.length := by omega
        have hposr : 0 < (fetchAux (collectNew seen events).2.1 ps rest).2 := by
          cases rest with
          | nil =>
            simp [fetchAux] at hres
          | cons r0 rs => exact fetchAux_cons_pos r0 rs _ ps
        have harith :
            (fetchAux (collectNew seen events).2.1 ps rest).2 + 1 - 1 =
              ((fetchAux (collectNew seen events).2.1 ps rest).2 - 1) + 1 := by omega
        rw [harith, stopsFrom_cons]
        exact ih (collectNew seen events).2.1 ps hres

/-- Claim C8: within a single fetch the Scoreboard Fetcher never emits two
raw events with the same identifier, and it pages exactly up to the first
page that is empty, introduces zero previously-unseen identifiers, or is
shorter than the requested page size: no page beyond such a page is
requested, and whenever paging stopped before exhausting the provider's
responses the last requested page satisfied the stop condition. -/
theorem C8_fetcher (pages : List (List RawEvent)) (page_size : Nat) :
    List.Pairwise (fun x y => x.id ≠ y.id) (fetch_scoreboard_all pages page_size).1 ∧
    (fetch_scoreboard_all pages page_size).2 ≤ pages.length ∧
    (∀ k, k + 1 < (fetch_scoreboard_all pages page_size).2 →
        ¬ stopsAt pages page_size k) ∧
    ((fetch_scoreboard_all pages page_size).2 < pages.length →
        stopsAt pages page_size ((fetch_scoreboard_all pages page_size).2 - 1)) ∧
    (pages ≠ [] → 0 < (fetch_scoreboard_all pages page_size).2) := by
  refine ⟨fetchAux_pairwise pages [] page_size, fetchAux_consumed_le pages [] page_size,
    fun k h => fetchAux_no_early_stop pages [] page_size k h,
    fun h => fetchAux_stop_reason pages [] page_size h, ?_⟩
  intro hne
  cases pages with
  | nil => exact absurd rfl hne
  | cons p ps => exact fetchAux_cons_pos p ps [] page_size

/-- Witness for C8: three pages with page size 2 — the first page is full
with two fresh ids, the second introduces no new id, so the second page is
the stopping page and the first is not. -/
theorem C8_fetcher_witness :
    ¬ stopsAt
        [[⟨some "a".toList, 0⟩, ⟨some "b".toList, 1⟩], [⟨some "a".toList, 2⟩],
          [⟨some "d".toList, 3⟩]] 2 0 ∧
      stopsAt
        [[⟨some "a".toList, 0⟩, ⟨some "b".toList, 1⟩], [⟨some "a".toList, 2⟩],
          [⟨some "d".toList, 3⟩]] 2 1 :=
  ⟨(C8_fetcher
        [[⟨some "a".toList, 0⟩, ⟨some "b".toList, 1⟩], [⟨some "a".toList, 2⟩],
          [⟨some "d".toList, 3⟩]] 2).2.2.1
      0 (by decide),
    (C8_fetcher
          [[⟨some "a".toList, 0⟩, ⟨some "b".toList, 1⟩], [⟨some "a".toList, 2⟩],
            [⟨some "d".toList, 3⟩]] 2).2.2.2.1
      (by decide)⟩

/-- Witness for C9: a sheet with one filled row, a one-row batch and lookback
3 — row 1 (at index `L`) is unchanged by the append. -/
theorem C9_append_frame_witness :
    append_games (fun i => if i = 1 then ["g".toList] else []) 1 [["a".toList]] 3 1 =
      (fun i => if i = 1 then ["g".toList] else []) 1 :=
  C9_append_frame (fun i => if i = 1 then ["g".toList] else []) 1 [["a".toList]] 3 1
    (Or.inl (by decide))

end BracketUpdate
